import Mathlib

/-!
Verification of the `hiveproxy` cancellable liveness-probe dispatcher.

Shallow embedding of the Go package `hiveproxy` (file `proxy.go` of the
repository): the struct `proxyFunctions` with its mutex-guarded map
`cancel : map[uint64]context.CancelFunc`, the methods `makeContext`,
`Cancel` and `CheckLive`, and the standard-library validation functions
they call (`net.SplitHostPort`, `net.ParseIP`, `strconv.ParseUint`).

Modelling choices:
* The Go map `cancel map[uint64]context.CancelFunc` is an
  `Option (List (Nat × Nat))`: `none` is the nil map of the zero value,
  `some m` an allocated map as an association list with unique keys.
  A cancel function (`context.CancelFunc`) is identified by the unique
  token allocated for it by `context.WithCancel`; calling it marks its
  token cancelled.  Cancelling twice is idempotent, as in Go.
* The mutex serialises every registry operation, so the registry is a
  state machine: each Go critical section becomes one Lean function from
  `ProxyState` to `ProxyState`.  Interleavings are expressed by
  composing these atomic steps in any order.
* `panic` (reached on a duplicate id) is `Except.error`.
* The `select` loop of `CheckLive` is driven by an explicit schedule: a
  list of `LoopEvent`s, each recording which arm the `select`
  chose on that iteration and, for a tick, whether the dial succeeded.
-/

namespace Hiveproxy

/-- One `context.CancelFunc` is identified by the token `context.WithCancel`
allocated for it. -/
abbrev Token := Nat

/-- Go map lookup on an association list (first binding wins; `makeContext`
keeps keys unique so at most one binding per id exists). -/
def lookupList (m : List (Nat × Token)) (id : Nat) : Option Token :=
  match m with
  | [] => none
  | (k, v) :: rest => if k = id then some v else lookupList rest id

/-- Go `delete(m, id)`: removes the binding for `id` (no-op when absent). -/
def eraseList (m : List (Nat × Token)) (id : Nat) : List (Nat × Token) :=
  match m with
  | [] => []
  | (k, v) :: rest =>
      if k = id then eraseList rest id else (k, v) :: eraseList rest id

/-- Lookup through a possibly-nil Go map: reading a nil map yields the zero
value (`nil`), modelled as `none`. -/
def lookupGoMap (m : Option (List (Nat × Token))) (id : Nat) : Option Token :=
  match m with
  | none => none
  | some l => lookupList l id

/-- `delete` through a possibly-nil Go map (a no-op on a nil map). -/
def eraseGoMap (m : Option (List (Nat × Token))) (id : Nat) :
    Option (List (Nat × Token)) :=
  match m with
  | none => none
  | some l => some (eraseList l id)

/-- The state of one `proxyFunctions` value together with the cancellation
status of every context it ever created.

* `cancelMap` embeds the field `cancel map[uint64]context.CancelFunc`
  (`none` = nil map, the zero value).
* `cancelled` records the tokens of the cancel functions that have been
  invoked (calling `context.CancelFunc` twice is idempotent, hence a set).
* `nextToken` is the allocator for fresh `context.WithCancel` tokens. -/
structure ProxyState where
  cancelMap : Option (List (Nat × Token))
  cancelled : List Token
  nextToken : Token
deriving DecidableEq, Repr

/-- The zero value `proxyFunctions{}`: nil map, nothing cancelled. -/
def zeroProxy : ProxyState := ⟨none, [], 0⟩

/-- Idempotent cancellation of a context: calling a `context.CancelFunc`
again after it already ran changes nothing. -/
def markCancelled (t : Token) (l : List Token) : List Token :=
  if t ∈ l then l else t :: l

/-- `makeContext(baseCtx, id)`, the critical section: derives a cancellable
context (fresh token), lazily allocates the map, panics on a duplicate id
(`Except.error "duplicate id"`), otherwise stores the new cancel function
and returns the updated state together with the new context's token.  The
wrapped cancel function `cf` returned by the Go code is `doneCallback id t`
below. -/
def makeContext (s : ProxyState) (id : Nat) :
    Except String (ProxyState × Token) :=
  let t := s.nextToken
  let m := match s.cancelMap with
    | none => []
    | some l => l
  match lookupList m id with
  | some _ => .error "duplicate id"
  | none =>
      .ok (⟨some ((id, t) :: m), s.cancelled, t + 1⟩, t)

/-- The closure `cf` built by `makeContext`: under the lock it calls
`cancel()` (cancelling token `t`) and then `delete(pfn.cancel, id)` —
unconditionally, without comparing the stored handle to its own. -/
def doneCallback (id : Nat) (t : Token) (s : ProxyState) : ProxyState :=
  ⟨eraseGoMap s.cancelMap id, markCancelled t s.cancelled, s.nextToken⟩

/-- `Cancel(id)`: under the lock, looks up the cancel function for `id`;
if nil (absent id or nil map) does nothing, otherwise calls it and removes
the binding. -/
def Cancel (s : ProxyState) (id : Nat) : ProxyState :=
  match lookupGoMap s.cancelMap id with
  | none => s
  | some t =>
      ⟨eraseGoMap s.cancelMap id, markCancelled t s.cancelled, s.nextToken⟩

example : makeContext zeroProxy 1 = .ok (⟨some [(1, 0)], [], 1⟩, 0) := rfl

example : Cancel zeroProxy 5 = zeroProxy := by decide

example :
    Cancel ⟨some [(1, 0)], [], 1⟩ 1 = ⟨some [], [0], 1⟩ := by decide

example :
    makeContext ⟨some [(1, 0)], [], 1⟩ 1 = .error "duplicate id" := rfl

/-!
Section: Address validation.

`CheckLive` validates its `addr` argument with `net.SplitHostPort`,
`net.ParseIP` and `strconv.ParseUint(port, 10, 16)`.  These standard
library functions are embedded below from their Go sources, over
`List Char` (the relevant scan targets are all ASCII, so byte indexing and
character indexing agree on well-formed UTF-8 input).
-/

/-- Index of the first occurrence of `c` (Go `byteIndex`). -/
def firstIdxAux (c : Char) : List Char → Nat → Option Nat
  | [], _ => none
  | x :: rest, i => if x = c then some i else firstIdxAux c rest (i + 1)

/-- Index of the first occurrence of `c` in `s`, if any. -/
def firstIdx (c : Char) (s : List Char) : Option Nat := firstIdxAux c s 0

/-- Index of the last occurrence of `c` in `s` (Go `last`, scanning from
the right). -/
def lastIdx (c : Char) (s : List Char) : Option Nat :=
  match firstIdx c s.reverse with
  | none => none
  | some i => some (s.length - 1 - i)

/-- The error cases of `net.SplitHostPort` (`AddrError.Err` messages). -/
inductive SplitErr where
  | missingPort
  | tooManyColons
  | missingRBracket
  | unexpectedLBracket
  | unexpectedRBracket
deriving DecidableEq, Repr

/-- `net.SplitHostPort(hostport)`: splits at the last colon, handling a
bracketed `[host]:port` form, and rejects stray brackets and extra colons
exactly as the Go source does. -/
def splitHostPort (s : List Char) : Except SplitErr (List Char × List Char) :=
  match lastIdx ':' s with
  | none => .error .missingPort
  | some i =>
    if s.head? = some '[' then
      match firstIdx ']' s with
      | none => .error .missingRBracket
      | some e =>
        if e + 1 = s.length then .error .missingPort
        else if e + 1 = i then
          if (firstIdx '[' (s.drop 1)).isSome then .error .unexpectedLBracket
          else if (firstIdx ']' (s.drop (e + 1))).isSome then
            .error .unexpectedRBracket
          else .ok ((s.take e).drop 1, s.drop (i + 1))
        else
          if s.get? (e + 1) = some ':' then .error .tooManyColons
          else .error .missingPort
    else
      if (firstIdx ':' (s.take i)).isSome then .error .tooManyColons
      else if (firstIdx '[' s).isSome then .error .unexpectedLBracket
      else if (firstIdx ']' s).isSome then .error .unexpectedRBracket
      else .ok (s.take i, s.drop (i + 1))

/-- `parseIPv4Fields` from Go's `net/netip`: decimal octets separated by
dots, each ≤ 255, no leading zeros, exactly four fields.  State mirrors
the Go loop: `val` is the current octet accumulator, `digLen` the number
of digits seen in the current octet, `pos` the number of completed octets,
`fields` the completed octets. -/
def parseIPv4Fields :
    List Char → Nat → Nat → Nat → List Nat → Option (List Nat)
  | [], val, _, pos, fields =>
      if pos < 3 then none
      else some (fields ++ [val])
  | c :: rest, val, digLen, pos, fields =>
      if '0' ≤ c ∧ c ≤ '9' then
        if digLen = 1 ∧ val = 0 then none
        else
          let val1 := val * 10 + (c.toNat - '0'.toNat)
          if val1 > 255 then none
          else parseIPv4Fields rest val1 (digLen + 1) pos fields
      else if c = '.' then
        if digLen = 0 ∨ rest = [] then none
        else if pos = 3 then none
        else parseIPv4Fields rest 0 0 (pos + 1) (fields ++ [val])
      else none

/-- `parseIPv4` from Go's `net/netip`: the four octets of a dotted-quad
literal, or `none` if the text is not one. -/
def parseIPv4 (s : List Char) : Option (List Nat) :=
  parseIPv4Fields s 0 0 0 []

/-- Value of a hexadecimal digit, as accepted by the `parseIPv6` group
scanner. -/
def hexVal (c : Char) : Option Nat :=
  if '0' ≤ c ∧ c ≤ '9' then some (c.toNat - '0'.toNat)
  else if 'a' ≤ c ∧ c ≤ 'f' then some (c.toNat - 'a'.toNat + 10)
  else if 'A' ≤ c ∧ c ≤ 'F' then some (c.toNat - 'A'.toNat + 10)
  else none

/-- The hex-group scanner of `parseIPv6`: consumes leading hex digits into
an accumulator, failing (like Go) as soon as the accumulated value exceeds
`0xFFFF`.  Returns the value, the number of digits consumed, and the rest
of the input. -/
def takeHexGroup : List Char → Nat → Option (Nat × Nat × List Char)
  | [], acc => some (acc, 0, [])
  | c :: rest, acc =>
    match hexVal c with
    | none => some (acc, 0, c :: rest)
    | some d =>
      let acc1 := acc * 16 + d
      if acc1 > 65535 then none
      else
        match takeHexGroup rest acc1 with
        | none => none
        | some (v, off, r) => some (v, off + 1, r)

/-- The code after the `parseIPv6` main loop: rejects trailing text,
requires an ellipsis when fewer than 16 bytes were filled (expanding it to
the missing zero bytes at its recorded position), and rejects an ellipsis
that would expand to zero fields. -/
def finishIPv6 (s : List Char) (ip : List Nat) (ellip : Option Nat) :
    Option (List Nat) :=
  if s ≠ [] then none
  else if ip.length < 16 then
    match ellip with
    | none => none
    | some e =>
        some (ip.take e ++ List.replicate (16 - ip.length) 0 ++ ip.drop e)
  else if ellip.isSome then none
  else some ip

/-- The main loop of `parseIPv6` from Go's `net/netip`.  `ip` holds the
bytes filled so far (`ip[0:i]` in Go) and `ellip` the byte position of a
`::` if one was seen.  The Go loop runs while `i < 16` and each iteration
fills exactly two bytes (or four and breaks, for an embedded IPv4), so
`fuel`, starting at 8, plays the role of the `i < 16` guard. -/
def parseIPv6Loop : Nat → List Char → List Nat → Option Nat → Option (List Nat)
  | 0, s, ip, ellip => finishIPv6 s ip ellip
  | fuel + 1, s, ip, ellip =>
    match takeHexGroup s 0 with
    | none => none
    | some (acc, off, rest) =>
      if off = 0 then none
      else if rest.head? = some '.' then
        if ellip.isNone ∧ ip.length ≠ 12 then none
        else if ip.length + 4 > 16 then none
        else
          match parseIPv4Fields s 0 0 0 [] with
          | none => none
          | some oct4 => finishIPv6 [] (ip ++ oct4) ellip
      else
        let ip1 := ip ++ [acc / 256, acc % 256]
        match rest with
        | [] => finishIPv6 [] ip1 ellip
        | c :: rest2 =>
          if c ≠ ':' then none
          else
            match rest2 with
            | [] => none
            | c2 :: rest3 =>
              if c2 = ':' then
                if ellip.isSome then none
                else
                  match rest3 with
                  | [] => finishIPv6 [] ip1 (some ip1.length)
                  | _ => parseIPv6Loop fuel rest3 ip1 (some ip1.length)
              else parseIPv6Loop fuel rest2 ip1 ellip

/-- `parseIPv6` from Go's `net/netip`, as used by `net.ParseIP`: a zone
suffix (`%zone`) always yields `nil` at the `net.ParseIP` level (netip
rejects an empty zone, and `net.ParseIP` rejects any address carrying a
zone), so any `%` fails. -/
def parseIPv6 (s : List Char) : Option (List Nat) :=
  if s.contains '%' then none
  else if s.head? = some ':' ∧ s.get? 1 = some ':' then
    if s.drop 2 = [] then some (List.replicate 16 0)
    else parseIPv6Loop 8 (s.drop 2) [] (some 0)
  else parseIPv6Loop 8 s [] none

/-- `net.ParseIP(s)`: scans for the first `.`, `:` or `%`; a dot selects
the IPv4 parser, a colon the IPv6 parser, a percent (or no marker at all,
e.g. a DNS name without dots) yields `nil`.  Returns the IP's bytes, or
`none` for Go's `nil`. -/
def parseIP (s : List Char) : Option (List Nat) :=
  match s.find? (fun c => c == '.' || c == ':' || c == '%') with
  | some c =>
      if c = '.' then parseIPv4 s
      else if c = ':' then parseIPv6 s
      else none
  | none => none

/-- The digit loop of `strconv.ParseUint(s, 10, 16)`: `cutoff` is
`maxVal/10 + 1 = 6554` and `maxVal` is `2^16 - 1 = 65535`; a non-digit is
a syntax error, exceeding the bounds a range error (Go's `uint64`
arithmetic cannot overflow before the cutoff check fires, so `Nat`
arithmetic is exact here). -/
def parseUintLoop : List Char → Nat → Option Nat
  | [], n => some n
  | c :: rest, n =>
    if '0' ≤ c ∧ c ≤ '9' then
      if n ≥ 6554 then none
      else
        let n1 := n * 10 + (c.toNat - '0'.toNat)
        if n1 > 65535 then none
        else parseUintLoop rest n1
    else none

/-- `strconv.ParseUint(s, 10, 16)` (successful value, `none` for any
error): rejects the empty string and, via the digit switch, any sign,
letter or other non-digit character. -/
def parseUint16 (s : List Char) : Option Nat :=
  if s = [] then none else parseUintLoop s 0

example : splitHostPort "127.0.0.1:80".data = .ok ("127.0.0.1".data, "80".data) := rfl

example : splitHostPort "127.0.0.1".data = .error .missingPort := rfl

example : splitHostPort "[::1]:80".data = .ok ("::1".data, "80".data) := rfl

example : splitHostPort "1:2:80".data = .error .tooManyColons := rfl

example : parseIP "127.0.0.1".data = some [127, 0, 0, 1] := by decide

example : parseIP "not-an-ip".data = none := by decide

example : parseIP "example.com".data = none := by decide

example : parseIP "010.0.0.1".data = none := by decide

example : parseIP "256.0.0.1".data = none := by decide

example :
    parseIP "::1".data =
      some [0, 0, 0, 0, 0, 0, 0, 0, 0, 0, 0, 0, 0, 0, 0, 1] := by decide

example :
    parseIP "2001:db8::ff00:42:8329".data =
      some [32, 1, 13, 184, 0, 0, 0, 0, 0, 0, 255, 0, 0, 66, 131, 41] := by
  decide

example :
    parseIP "::ffff:192.0.2.1".data =
      some [0, 0, 0, 0, 0, 0, 0, 0, 0, 0, 255, 255, 192, 0, 2, 1] := by decide

example : parseIP "fe80::1%eth0".data = none := by decide

example : parseIP "1::2::3".data = none := by decide

example : parseIP "1:2:3:4:5:6:7:8:9".data = none := by decide

example : parseUint16 "80".data = some 80 := by decide

example : parseUint16 "65535".data = some 65535 := by decide

example : parseUint16 "65536".data = none := by decide

example : parseUint16 "99999".data = none := by decide

example : parseUint16 "".data = none := by decide

example : parseUint16 "-1".data = none := by decide

example : parseUint16 "0x50".data = none := by decide

example : parseUint16 "00080".data = some 80 := by decide

/-!
Section: `CheckLive`.

The probe loop `for { select { case <-ctx.Done(): ...; case <-ticker.C:
... } }` is driven by a schedule: one `LoopEvent` per iteration, recording
which `select` arm fired and, for a ticker arm, whether
`dialer.DialContext` succeeded.  A schedule that runs out of events
describes a probe that is still polling (the Go loop has no other exit).
-/

/-- The possible return values of `CheckLive`, one constructor per
`return` site: `nil`, the `*AddrError` from `SplitHostPort`,
`errors.New("invalid IP")`, `errors.New("invalid port")` and
`errors.New("canceled")`. -/
inductive LiveResult where
  | ok
  | errSplit (e : SplitErr)
  | errInvalidIP
  | errInvalidPort
  | errCanceled
deriving DecidableEq, Repr

/-- One iteration of the probe loop: which arm of the `select` fired.
`tick dialOk` is the ticker arm together with the outcome of the dial
attempt made there. -/
inductive LoopEvent where
  | ctxDone
  | tick (dialOk : Bool)
deriving DecidableEq, Repr

/-- Observable outcome of running the probe loop on a schedule.

* `result = none` means the schedule was exhausted with the loop still
  polling (no `return` reached).
* `rest` are the schedule events that were not consumed.
* `dials` counts calls to `dialer.DialContext`.
* `opened`/`closed` count connections established and `conn.Close()`
  calls. -/
structure LoopOut where
  result : Option LiveResult
  rest : List LoopEvent
  dials : Nat
  opened : Nat
  closed : Nat
deriving DecidableEq, Repr

/-- The probe loop of `CheckLive`: on the done arm, return
`errors.New("canceled")`; on a ticker arm, dial once — on success close
the connection and return `nil`, on failure fall through to the next
iteration. -/
def pollLoop : List LoopEvent → LoopOut
  | [] => ⟨none, [], 0, 0, 0⟩
  | .ctxDone :: rest => ⟨some .errCanceled, rest, 0, 0, 0⟩
  | .tick dialOk :: rest =>
    if dialOk then ⟨some .ok, rest, 1, 1, 1⟩
    else
      let o := pollLoop rest
      ⟨o.result, o.rest, o.dials + 1, o.opened, o.closed⟩

/-- Outcome of one `CheckLive` call: the loop observables plus the final
registry state.  When `result = none` the call has not returned yet, so
the deferred `cancel()` (the `cf` closure) has not run. -/
structure CheckResult where
  result : Option LiveResult
  rest : List LoopEvent
  dials : Nat
  opened : Nat
  closed : Nat
  state : ProxyState
deriving DecidableEq, Repr

/-- The validation prefix of `CheckLive` in isolation: the error it
returns for a malformed address (`none` when the address passes all three
checks). -/
def validationResult (addr : List Char) : Option LiveResult :=
  match splitHostPort addr with
  | .error e => some (.errSplit e)
  | .ok (host, port) =>
    if parseIP host = none then some .errInvalidIP
    else if parseUint16 port = none then some .errInvalidPort
    else none

/-- `CheckLive(ctx, id, addr)` run against the schedule `events`:
registers via `makeContext` (panicking on a duplicate id), validates the
address, then runs the poll loop; the deferred `cancel()` — the wrapped
`cf`, i.e. `doneCallback id t` — runs on every returning path. -/
def CheckLive (s : ProxyState) (id : Nat) (addr : List Char)
    (events : List LoopEvent) : Except String CheckResult :=
  match makeContext s id with
  | .error e => .error e
  | .ok (s1, t) =>
    match splitHostPort addr with
    | .error e =>
        .ok ⟨some (.errSplit e), events, 0, 0, 0, doneCallback id t s1⟩
    | .ok (host, port) =>
      if parseIP host = none then
        .ok ⟨some .errInvalidIP, events, 0, 0, 0, doneCallback id t s1⟩
      else if parseUint16 port = none then
        .ok ⟨some .errInvalidPort, events, 0, 0, 0, doneCallback id t s1⟩
      else
        let o := pollLoop events
        match o.result with
        | none => .ok ⟨none, o.rest, o.dials, o.opened, o.closed, s1⟩
        | some r =>
            .ok ⟨some r, o.rest, o.dials, o.opened, o.closed,
              doneCallback id t s1⟩

example :
    CheckLive zeroProxy 7 "127.0.0.1:80".data [.tick false, .tick true] =
      .ok ⟨some .ok, [], 2, 1, 1, ⟨some [], [0], 1⟩⟩ := rfl

example :
    CheckLive zeroProxy 7 "127.0.0.1".data [.tick true] =
      .ok ⟨some (.errSplit .missingPort), [.tick true], 0, 0, 0,
        ⟨some [], [0], 1⟩⟩ := rfl

example :
    CheckLive zeroProxy 7 "not-an-ip:80".data [] =
      .ok ⟨some .errInvalidIP, [], 0, 0, 0, ⟨some [], [0], 1⟩⟩ := rfl

example :
    CheckLive zeroProxy 7 "127.0.0.1:99999".data [] =
      .ok ⟨some .errInvalidPort, [], 0, 0, 0, ⟨some [], [0], 1⟩⟩ := rfl

example :
    CheckLive zeroProxy 7 "127.0.0.1:80".data [.tick false, .ctxDone, .tick true] =
      .ok ⟨some .errCanceled, [.tick true], 1, 0, 0, ⟨some [], [0], 1⟩⟩ := rfl

example :
    CheckLive ⟨some [(7, 3)], [], 4⟩ 7 "gibberish".data [] =
      .error "duplicate id" := rfl

/-!
Section: Registry lemmas.
-/

theorem lookupList_erase_self (l : List (Nat × Token)) (id : Nat) :
    lookupList (eraseList l id) id = none := by
  induction l with
  | nil => rfl
  | cons kv rest ih =>
      obtain ⟨k, v⟩ := kv
      by_cases h : k = id
      · simpa [eraseList, h] using ih
      · simpa [eraseList, lookupList, h] using ih

theorem lookupList_erase_ne (l : List (Nat × Token)) (id id' : Nat)
    (h : id' ≠ id) :
    lookupList (eraseList l id) id' = lookupList l id' := by
  induction l with
  | nil => rfl
  | cons kv rest ih =>
      obtain ⟨k, v⟩ := kv
      by_cases hk : k = id
      · subst hk
        simp [eraseList, lookupList, Ne.symm h, ih]
      · by_cases hk' : k = id'
        · subst hk'
          simp [eraseList, lookupList, hk, ih]
        · simp [eraseList, lookupList, hk, hk', ih]

theorem eraseList_idem (l : List (Nat × Token)) (id : Nat) :
    eraseList (eraseList l id) id = eraseList l id := by
  induction l with
  | nil => rfl
  | cons kv rest ih =>
      obtain ⟨k, v⟩ := kv
      by_cases h : k = id
      · simp [eraseList, h, ih]
      · simp [eraseList, h, ih]

theorem lookupGoMap_erase_self (m : Option (List (Nat × Token))) (id : Nat) :
    lookupGoMap (eraseGoMap m id) id = none := by
  cases m with
  | none => rfl
  | some l => simpa [eraseGoMap, lookupGoMap] using lookupList_erase_self l id

theorem lookupGoMap_erase_ne (m : Option (List (Nat × Token))) (id id' : Nat)
    (h : id' ≠ id) :
    lookupGoMap (eraseGoMap m id) id' = lookupGoMap m id' := by
  cases m with
  | none => rfl
  | some l => simpa [eraseGoMap, lookupGoMap] using lookupList_erase_ne l id id' h

theorem mem_markCancelled (u t : Token) (l : List Token) :
    u ∈ markCancelled t l ↔ u = t ∨ u ∈ l := by
  unfold markCancelled
  by_cases h : t ∈ l
  · simp only [if_pos h]
    constructor
    · exact fun hu => Or.inr hu
    · rintro (rfl | hu)
      · exact h
      · exact hu
  · simp [if_neg h, List.mem_cons]

theorem markCancelled_idem (t : Token) (l : List Token) :
    markCancelled t (markCancelled t l) = markCancelled t l := by
  unfold markCancelled
  by_cases h : t ∈ l
  · simp [h]
  · simp [h]

theorem self_mem_markCancelled (t : Token) (l : List Token) :
    t ∈ markCancelled t l := (mem_markCancelled t t l).mpr (Or.inl rfl)

theorem lookupGoMap_doneCallback_self (s : ProxyState) (id : Nat) (t : Token) :
    lookupGoMap (doneCallback id t s).cancelMap id = none :=
  lookupGoMap_erase_self s.cancelMap id

theorem doneCallback_idem (s : ProxyState) (id : Nat) (t : Token) :
    doneCallback id t (doneCallback id t s) = doneCallback id t s := by
  unfold doneCallback
  cases hm : s.cancelMap with
  | none => simp [eraseGoMap, markCancelled_idem]
  | some l => simp [eraseGoMap, markCancelled_idem, eraseList_idem]

theorem Cancel_of_absent (s : ProxyState) (id : Nat)
    (h : lookupGoMap s.cancelMap id = none) : Cancel s id = s := by
  unfold Cancel
  rw [h]

theorem lookupList_eq_none_iff (l : List (Nat × Token)) (id : Nat) :
    lookupList l id = none ↔ id ∉ l.map Prod.fst := by
  induction l with
  | nil => simp [lookupList]
  | cons kv rest ih =>
      obtain ⟨k, v⟩ := kv
      by_cases h : k = id
      · simp [lookupList, h]
      · simp [lookupList, h, ih, Ne.symm h]

/-- The map of a `ProxyState` never holds two bindings for one id (a Go
map cannot; here it is an invariant of the association list). -/
def mapKeysNodup (s : ProxyState) : Prop :=
  match s.cancelMap with
  | none => True
  | some l => (l.map Prod.fst).Nodup

theorem mapKeysNodup_makeContext (s : ProxyState) (id : Nat)
    (s1 : ProxyState) (t : Token) (hs : mapKeysNodup s)
    (h : makeContext s id = .ok (s1, t)) : mapKeysNodup s1 := by
  cases hm : s.cancelMap with
  | none =>
      simp only [makeContext, hm, lookupList] at h
      cases h
      simp [mapKeysNodup]
  | some l =>
      unfold mapKeysNodup at hs
      rw [hm] at hs
      cases hl : lookupList l id with
      | some v =>
          simp only [makeContext, hm, hl] at h
          exact Except.noConfusion h
      | none =>
          simp only [makeContext, hm, hl] at h
          cases h
          show (List.map Prod.fst ((id, s.nextToken) :: l)).Nodup
          rw [List.map_cons]
          exact List.nodup_cons.mpr ⟨(lookupList_eq_none_iff l id).mp hl, hs⟩

/-!
Section: The claims.
-/

/-- Claim C1, counterexample.  The claim states that the `done` callback
(the `cf` closure returned by `makeContext`) deletes the registry entry
for its id only if the entry still points at the handle installed by the
same operation, and never removes a handle installed by a later operation
that reused the id after cleanup.  The code's `cf` runs
`delete(pfn.cancel, id)` unconditionally.  Concrete refuting trace:
operation A registers id 1 (token 0); `Cancel 1` cancels A and clears the
entry; operation B re-registers id 1 (token 1); then A's deferred `done`
runs and deletes B's entry even though it holds B's handle, not A's. -/
theorem done_removes_foreign_handle :
    (makeContext zeroProxy 1 = .ok (⟨some [(1, 0)], [], 1⟩, 0) ∧
     Cancel ⟨some [(1, 0)], [], 1⟩ 1 = ⟨some [], [0], 1⟩ ∧
     makeContext ⟨some [], [0], 1⟩ 1 = .ok (⟨some [(1, 1)], [0], 2⟩, 1) ∧
     lookupGoMap (ProxyState.mk (some [(1, 1)]) [0] 2).cancelMap 1 = some 1 ∧
     (some (1 : Token) ≠ some (0 : Token)) ∧
     lookupGoMap (doneCallback 1 0 ⟨some [(1, 1)], [0], 2⟩).cancelMap 1 =
       none) ∧
    ¬ (∀ (s : ProxyState) (id : Nat) (t : Token),
        lookupGoMap s.cancelMap id ≠ some t →
        lookupGoMap (doneCallback id t s).cancelMap id =
          lookupGoMap s.cancelMap id) := by
  refine ⟨⟨rfl, by decide, rfl, by decide, by decide, by decide⟩, ?_⟩
  intro hclaim
  have h := hclaim ⟨some [(1, 1)], [0], 2⟩ 1 0 (by decide)
  exact absurd h (by decide)

/-- Claim C1, amended.  The `done` callback cancels its own scope
(idempotently) and deletes the id's registry entry *unconditionally*:
entries of other ids are untouched, but when a later operation reused the
id after cleanup, `done` removes that later operation's entry as well
(while cancelling only its own token, never the later handle). -/
theorem done_deletes_unconditionally (s : ProxyState) (id : Nat) (t : Token) :
    lookupGoMap (doneCallback id t s).cancelMap id = none ∧
    t ∈ (doneCallback id t s).cancelled ∧
    (∀ id', id' ≠ id →
      lookupGoMap (doneCallback id t s).cancelMap id' =
        lookupGoMap s.cancelMap id') ∧
    (∀ u, u ∈ (doneCallback id t s).cancelled ↔ u = t ∨ u ∈ s.cancelled) := by
  refine ⟨lookupGoMap_doneCallback_self s id t,
    self_mem_markCancelled t s.cancelled, ?_, ?_⟩
  · intro id' h
    exact lookupGoMap_erase_ne s.cancelMap id id' h
  · intro u
    exact mem_markCancelled u t s.cancelled

/-- Witness for `done_deletes_unconditionally` at a concrete state. -/
theorem done_deletes_unconditionally_witness :
    lookupGoMap (doneCallback 1 0 ⟨some [(1, 0), (2, 5)], [], 6⟩).cancelMap 1 =
      none ∧
    0 ∈ (doneCallback 1 0 ⟨some [(1, 0), (2, 5)], [], 6⟩).cancelled ∧
    lookupGoMap (doneCallback 1 0 ⟨some [(1, 0), (2, 5)], [], 6⟩).cancelMap 2 =
      lookupGoMap (some [(1, 0), (2, 5)]) 2 := by
  obtain ⟨h1, h2, h3, _⟩ :=
    done_deletes_unconditionally ⟨some [(1, 0), (2, 5)], [], 6⟩ 1 0
  exact ⟨h1, h2, h3 2 (by decide)⟩

/-- Claim C2.  Registering an id that already has a live handle panics
(`"duplicate id"`), never silently overwrites the handle, and a
successful registration keeps the map's keys unique, so at most one
active handle exists per id. -/
theorem duplicate_id_panics (s : ProxyState) (id : Nat) (t : Token)
    (h : lookupGoMap s.cancelMap id = some t) :
    makeContext s id = .error "duplicate id" ∧
    (∀ s1 t1, makeContext s id ≠ .ok (s1, t1)) ∧
    (∀ s' id' s1' t1', mapKeysNodup s' →
      makeContext s' id' = .ok (s1', t1') → mapKeysNodup s1') := by
  have herr : makeContext s id = .error "duplicate id" := by
    cases hm : s.cancelMap with
    | none => rw [hm] at h; exact absurd h (by simp [lookupGoMap])
    | some l =>
        rw [hm] at h
        simp only [lookupGoMap] at h
        simp only [makeContext, hm, h]
  refine ⟨herr, ?_, ?_⟩
  · intro s1 t1 hok
    rw [herr] at hok
    cases hok
  · intro s' id' s1' t1' hnd hok
    exact mapKeysNodup_makeContext s' id' s1' t1' hnd hok

/-- Witness for `duplicate_id_panics`: id 7 is live (token 3), so a second
registration aborts. -/
theorem duplicate_id_panics_witness :
    makeContext ⟨some [(7, 3)], [], 4⟩ 7 = .error "duplicate id" :=
  (duplicate_id_panics ⟨some [(7, 3)], [], 4⟩ 7 3 (by decide)).1

/-- Claim C5.  `Cancel(id)` on an unknown or already-completed id returns
the state unchanged; on a live id it invokes the stored handle (the token
joins the cancelled set) and removes the entry. -/
theorem Cancel_noop_or_remove (s : ProxyState) (id : Nat) :
    (lookupGoMap s.cancelMap id = none → Cancel s id = s) ∧
    (∀ t, lookupGoMap s.cancelMap id = some t →
      t ∈ (Cancel s id).cancelled ∧
      lookupGoMap (Cancel s id).cancelMap id = none ∧
      (Cancel s id).cancelMap = eraseGoMap s.cancelMap id ∧
      (Cancel s id).nextToken = s.nextToken) := by
  constructor
  · exact Cancel_of_absent s id
  · intro t h
    unfold Cancel
    rw [h]
    exact ⟨self_mem_markCancelled t s.cancelled,
      lookupGoMap_erase_self s.cancelMap id, rfl, rfl⟩

/-- Witness for `Cancel_noop_or_remove`: an unknown id is a no-op, a live
id is cancelled and its entry removed. -/
theorem Cancel_noop_or_remove_witness :
    Cancel zeroProxy 5 = zeroProxy ∧
    3 ∈ (Cancel ⟨some [(7, 3)], [], 4⟩ 7).cancelled ∧
    lookupGoMap (Cancel ⟨some [(7, 3)], [], 4⟩ 7).cancelMap 7 = none :=
  ⟨(Cancel_noop_or_remove zeroProxy 5).1 (by decide),
   ((Cancel_noop_or_remove ⟨some [(7, 3)], [], 4⟩ 7).2 3 (by decide)).1,
   ((Cancel_noop_or_remove ⟨some [(7, 3)], [], 4⟩ 7).2 3 (by decide)).2.1⟩

/-- Claim C10.  The zero value of the registry is ready to use: with a nil
map, `Cancel` is a no-op that does not fault, and `makeContext` allocates
the map on first registration, storing the new handle. -/
theorem zero_value_ready (s : ProxyState) (id : Nat) (h : s.cancelMap = none) :
    Cancel s id = s ∧
    makeContext s id =
      .ok (⟨some [(id, s.nextToken)], s.cancelled, s.nextToken + 1⟩,
        s.nextToken) := by
  constructor
  · exact Cancel_of_absent s id (by rw [h]; rfl)
  · simp only [makeContext, h, lookupList]

/-- Witness for `zero_value_ready` at the zero value itself. -/
theorem zero_value_ready_witness :
    Cancel zeroProxy 9 = zeroProxy ∧
    makeContext zeroProxy 9 = .ok (⟨some [(9, 0)], [], 1⟩, 0) :=
  zero_value_ready zeroProxy 9 rfl

/-!
Section: `CheckLive` structural lemmas.
-/

theorem makeContext_registers (s : ProxyState) (id : Nat) (s1 : ProxyState)
    (t : Token) (hmk : makeContext s id = .ok (s1, t)) :
    lookupGoMap s1.cancelMap id = some t ∧ t = s.nextToken := by
  cases hm : s.cancelMap with
  | none =>
      simp only [makeContext, hm, lookupList] at hmk
      cases hmk
      exact ⟨by simp [lookupGoMap, lookupList], rfl⟩
  | some l =>
      cases hl : lookupList l id with
      | some v =>
          simp only [makeContext, hm, hl] at hmk
          exact Except.noConfusion hmk
      | none =>
          simp only [makeContext, hm, hl] at hmk
          cases hmk
          exact ⟨by simp [lookupGoMap, lookupList], rfl⟩

theorem validationResult_ne_ok_canceled (addr : List Char) (e : LiveResult)
    (hv : validationResult addr = some e) :
    e ≠ .ok ∧ e ≠ .errCanceled := by
  cases hsp : splitHostPort addr with
  | error er =>
      simp only [validationResult, hsp] at hv
      cases hv
      exact ⟨fun h => LiveResult.noConfusion h, fun h => LiveResult.noConfusion h⟩
  | ok hp =>
      obtain ⟨host, port⟩ := hp
      simp only [validationResult, hsp] at hv
      by_cases hip : parseIP host = none
      · rw [if_pos hip] at hv
        cases hv
        exact ⟨fun h => LiveResult.noConfusion h, fun h => LiveResult.noConfusion h⟩
      · rw [if_neg hip] at hv
        by_cases hpt : parseUint16 port = none
        · rw [if_pos hpt] at hv
          cases hv
          exact ⟨fun h => LiveResult.noConfusion h,
            fun h => LiveResult.noConfusion h⟩
        · rw [if_neg hpt] at hv
          exact Option.noConfusion hv

theorem checkLive_validation_error (s : ProxyState) (id : Nat)
    (addr : List Char) (events : List LoopEvent) (e : LiveResult)
    (s1 : ProxyState) (t : Token)
    (hmk : makeContext s id = .ok (s1, t))
    (hv : validationResult addr = some e) :
    CheckLive s id addr events =
      .ok ⟨some e, events, 0, 0, 0, doneCallback id t s1⟩ := by
  cases hsp : splitHostPort addr with
  | error er =>
      simp only [validationResult, hsp] at hv
      cases hv
      simp only [CheckLive, hmk, hsp]
  | ok hp =>
      obtain ⟨host, port⟩ := hp
      simp only [validationResult, hsp] at hv
      by_cases hip : parseIP host = none
      · rw [if_pos hip] at hv
        cases hv
        simp only [CheckLive, hmk, hsp, if_pos hip]
      · rw [if_neg hip] at hv
        by_cases hpt : parseUint16 port = none
        · rw [if_pos hpt] at hv
          cases hv
          simp only [CheckLive, hmk, hsp, if_neg hip, if_pos hpt]
        · rw [if_neg hpt] at hv
          exact Option.noConfusion hv

theorem checkLive_valid_eq (s : ProxyState) (id : Nat) (addr : List Char)
    (events : List LoopEvent) (s1 : ProxyState) (t : Token)
    (hmk : makeContext s id = .ok (s1, t))
    (hv : validationResult addr = none) :
    CheckLive s id addr events =
      .ok ⟨(pollLoop events).result, (pollLoop events).rest,
        (pollLoop events).dials, (pollLoop events).opened,
        (pollLoop events).closed,
        match (pollLoop events).result with
        | none => s1
        | some _ => doneCallback id t s1⟩ := by
  cases hsp : splitHostPort addr with
  | error er =>
      simp only [validationResult, hsp] at hv
      exact Option.noConfusion hv
  | ok hp =>
      obtain ⟨host, port⟩ := hp
      simp only [validationResult, hsp] at hv
      by_cases hip : parseIP host = none
      · rw [if_pos hip] at hv; exact Option.noConfusion hv
      · rw [if_neg hip] at hv
        by_cases hpt : parseUint16 port = none
        · rw [if_pos hpt] at hv; exact Option.noConfusion hv
        · simp only [CheckLive, hmk, hsp, if_neg hip, if_neg hpt]
          cases hres : (pollLoop events).result with
          | none => simp [hres]
          | some r => simp [hres]

/-- Claim C3.  Whenever `CheckLive` returns (through any exit path: success,
validation failure, or cancellation), the deferred `done` has removed the
registry entry for its id: the final state has no binding for `id`, a
racing `Cancel` afterwards is a no-op, and the `done` that ran is
idempotent — running it a second time changes nothing. -/
theorem checkLive_removes_entry_on_return (s : ProxyState) (id : Nat)
    (addr : List Char) (events : List LoopEvent) (out : CheckResult)
    (r : LiveResult) (hok : CheckLive s id addr events = .ok out)
    (hr : out.result = some r) :
    lookupGoMap out.state.cancelMap id = none ∧
    Cancel out.state id = out.state ∧
    ∃ s1 t, makeContext s id = .ok (s1, t) ∧
      out.state = doneCallback id t s1 ∧
      doneCallback id t out.state = out.state := by
  cases hmk : makeContext s id with
  | error e =>
      rw [CheckLive, hmk] at hok
      exact Except.noConfusion hok
  | ok st =>
      obtain ⟨s1, t⟩ := st
      have hdone : out.state = doneCallback id t s1 := by
        cases hv : validationResult addr with
        | some e =>
            rw [checkLive_validation_error s id addr events e s1 t hmk hv]
              at hok
            cases hok
            rfl
        | none =>
            rw [checkLive_valid_eq s id addr events s1 t hmk hv] at hok
            cases hok
            cases hres : (pollLoop events).result with
            | none => rw [hres] at hr; exact Option.noConfusion hr
            | some r' => simp [hres]
      refine ⟨?_, ?_, s1, t, rfl, hdone, ?_⟩
      · rw [hdone]; exact lookupGoMap_doneCallback_self s1 id t
      · exact Cancel_of_absent out.state id
          (by rw [hdone]; exact lookupGoMap_doneCallback_self s1 id t)
      · rw [hdone]; exact doneCallback_idem s1 id t

/-- Witness for `checkLive_removes_entry_on_return`: a successful probe of
`127.0.0.1:80` under id 7 leaves no entry for 7. -/
theorem checkLive_removes_entry_on_return_witness :
    lookupGoMap (CheckResult.mk (some .ok) [] 1 1 1 ⟨some [], [0], 1⟩).state.cancelMap 7 = none ∧
    Cancel (CheckResult.mk (some .ok) [] 1 1 1 ⟨some [], [0], 1⟩).state 7 =
      (CheckResult.mk (some .ok) [] 1 1 1 ⟨some [], [0], 1⟩).state ∧
    ∃ s1 t, makeContext zeroProxy 7 = .ok (s1, t) ∧
      (CheckResult.mk (some .ok) [] 1 1 1 ⟨some [], [0], 1⟩).state =
        doneCallback 7 t s1 ∧
      doneCallback 7 t (CheckResult.mk (some .ok) [] 1 1 1
        ⟨some [], [0], 1⟩).state =
        (CheckResult.mk (some .ok) [] 1 1 1 ⟨some [], [0], 1⟩).state :=
  checkLive_removes_entry_on_return zeroProxy 7 "127.0.0.1:80".data
    [.tick true] ⟨some .ok, [], 1, 1, 1, ⟨some [], [0], 1⟩⟩ .ok rfl rfl

/-- Claim C4.  On a malformed address (split failure, non-IP host, or
non-16-bit port) `CheckLive` returns the validation error immediately: no
schedule event is consumed (zero poll ticks), zero dial attempts are made,
and the outcome is neither success nor cancellation. -/
theorem checkLive_invalid_addr_fast_fail (s : ProxyState) (id : Nat)
    (addr : List Char) (events : List LoopEvent) (e : LiveResult)
    (s1 : ProxyState) (t : Token)
    (hmk : makeContext s id = .ok (s1, t))
    (hv : validationResult addr = some e) :
    CheckLive s id addr events =
      .ok ⟨some e, events, 0, 0, 0, doneCallback id t s1⟩ ∧
    e ≠ .ok ∧ e ≠ .errCanceled := by
  refine ⟨checkLive_validation_error s id addr events e s1 t hmk hv, ?_⟩
  exact validationResult_ne_ok_canceled addr e hv

/-- Witness for `checkLive_invalid_addr_fast_fail` on the spec's example
`"127.0.0.1:99999"`: immediate port error, zero dials, schedule untouched. -/
theorem checkLive_invalid_addr_fast_fail_witness :
    CheckLive zeroProxy 7 "127.0.0.1:99999".data [.tick true, .ctxDone] =
      .ok ⟨some .errInvalidPort, [.tick true, .ctxDone], 0, 0, 0,
        doneCallback 7 0 ⟨some [(7, 0)], [], 1⟩⟩ ∧
    LiveResult.errInvalidPort ≠ .ok ∧
    LiveResult.errInvalidPort ≠ .errCanceled :=
  checkLive_invalid_addr_fast_fail zeroProxy 7 "127.0.0.1:99999".data
    [.tick true, .ctxDone] .errInvalidPort ⟨some [(7, 0)], [], 1⟩ 0 rfl
    (by decide)

/-- Claim C9.  Registration precedes validation in `CheckLive`: a duplicate
id panics before the address is even inspected (including a malformed
address), and with a fresh id a malformed address still transiently
registers the id — `makeContext` installs the binding — before the
deferred `done` removes it and the validation error is returned. -/
theorem registration_precedes_validation (s : ProxyState) (id : Nat) :
    (∀ t addr events, lookupGoMap s.cancelMap id = some t →
      CheckLive s id addr events = .error "duplicate id") ∧
    (∀ s1 t, makeContext s id = .ok (s1, t) →
      lookupGoMap s1.cancelMap id = some t ∧
      (∀ addr events e, validationResult addr = some e →
        CheckLive s id addr events =
          .ok ⟨some e, events, 0, 0, 0, doneCallback id t s1⟩ ∧
        lookupGoMap (doneCallback id t s1).cancelMap id = none)) := by
  constructor
  · intro t addr events h
    have herr := (duplicate_id_panics s id t h).1
    rw [CheckLive, herr]
  · intro s1 t hmk
    refine ⟨(makeContext_registers s id s1 t hmk).1, ?_⟩
    intro addr events e hv
    exact ⟨checkLive_validation_error s id addr events e s1 t hmk hv,
      lookupGoMap_doneCallback_self s1 id t⟩

/-- Witness for `registration_precedes_validation`: id 7 live with a
malformed address panics; a fresh id with `"gibberish"` is transiently
registered then removed. -/
theorem registration_precedes_validation_witness :
    CheckLive ⟨some [(7, 3)], [], 4⟩ 7 "gibberish".data [] =
      .error "duplicate id" ∧
    lookupGoMap (ProxyState.mk (some [(7, 0)]) [] 1).cancelMap 7 = some 0 ∧
    CheckLive zeroProxy 7 "gibberish".data [] =
      .ok ⟨some (.errSplit .missingPort), [], 0, 0, 0,
        doneCallback 7 0 ⟨some [(7, 0)], [], 1⟩⟩ ∧
    lookupGoMap (doneCallback 7 0 ⟨some [(7, 0)], [], 1⟩).cancelMap 7 =
      none := by
  have h1 := (registration_precedes_validation ⟨some [(7, 3)], [], 4⟩ 7).1 3
    "gibberish".data [] (by decide)
  have h2 := (registration_precedes_validation zeroProxy 7).2
    ⟨some [(7, 0)], [], 1⟩ 0 rfl
  have h3 := h2.2 "gibberish".data [] (.errSplit .missingPort) (by decide)
  exact ⟨h1, h2.1, h3.1, h3.2⟩

/-!
Section: Poll-loop lemmas.
-/

theorem pollLoop_tick_false (events : List LoopEvent) :
    pollLoop (.tick false :: events) =
      ⟨(pollLoop events).result, (pollLoop events).rest,
        (pollLoop events).dials + 1, (pollLoop events).opened,
        (pollLoop events).closed⟩ := rfl

theorem pollLoop_cancel_after_failures (pre post : List LoopEvent)
    (hpre : ∀ ev ∈ pre, ev = .tick false) :
    pollLoop (pre ++ .ctxDone :: post) =
      ⟨some .errCanceled, post, pre.length, 0, 0⟩ := by
  induction pre with
  | nil => rfl
  | cons ev rest ih =>
      have hev : ev = .tick false := hpre ev (by simp)
      subst hev
      have hrest : ∀ e ∈ rest, e = .tick false :=
        fun e he => hpre e (by simp [he])
      rw [List.cons_append, pollLoop_tick_false, ih hrest]
      simp

theorem pollLoop_result_cases (events : List LoopEvent) :
    (pollLoop events).result = none ∨ (pollLoop events).result = some .ok ∨
      (pollLoop events).result = some .errCanceled := by
  induction events with
  | nil => exact Or.inl rfl
  | cons ev rest ih =>
      cases ev with
      | ctxDone => exact Or.inr (Or.inr rfl)
      | tick dialOk =>
          cases dialOk with
          | false => rw [pollLoop_tick_false]; exact ih
          | true => exact Or.inr (Or.inl rfl)

theorem pollLoop_opened_eq_closed (events : List LoopEvent) :
    (pollLoop events).opened = (pollLoop events).closed := by
  induction events with
  | nil => rfl
  | cons ev rest ih =>
      cases ev with
      | ctxDone => rfl
      | tick dialOk =>
          cases dialOk with
          | false => rw [pollLoop_tick_false]; exact ih
          | true => rfl

theorem pollLoop_ok_iff (events : List LoopEvent) :
    (pollLoop events).result = some .ok ↔
      ∃ pre post, events = pre ++ .tick true :: post ∧
        ∀ ev ∈ pre, ev = .tick false := by
  induction events with
  | nil =>
      constructor
      · intro h; exact Option.noConfusion h
      · rintro ⟨pre, post, hev, -⟩
        exact absurd hev (by simp)
  | cons ev rest ih =>
      cases ev with
      | ctxDone =>
          constructor
          · intro h
            rw [show (pollLoop (.ctxDone :: rest)).result =
              some .errCanceled from rfl] at h
            cases h
          · rintro ⟨pre, post, hev, hpre⟩
            cases pre with
            | nil => simp at hev
            | cons p pre1 =>
                rw [List.cons_append, List.cons.injEq] at hev
                have hp : p = LoopEvent.tick false := hpre p (by simp)
                rw [hp] at hev
                exact absurd hev.1 (by simp)
      | tick dialOk =>
          cases dialOk with
          | true =>
              constructor
              · intro _
                exact ⟨[], rest, rfl, by simp⟩
              · intro _
                rfl
          | false =>
              rw [pollLoop_tick_false]
              constructor
              · intro h
                obtain ⟨pre, post, hev, hpre⟩ := ih.mp h
                exact ⟨.tick false :: pre, post, by rw [hev, List.cons_append],
                  by
                    intro e he
                    rcases List.mem_cons.mp he with h1 | h2
                    · exact h1
                    · exact hpre e h2⟩
              · rintro ⟨pre, post, hev, hpre⟩
                cases pre with
                | nil => simp at hev
                | cons p pre1 =>
                    rw [List.cons_append, List.cons.injEq] at hev
                    refine ih.mpr ⟨pre1, post, hev.2, ?_⟩
                    intro e he
                    exact hpre e (by simp [he])

/-- Claim C6.  With a valid address, cancellation observed by the loop's
done arm after any number of failed dial ticks makes `CheckLive` return
the `"canceled"` error at once: the remaining schedule is untouched, and
the cancelled outcome is distinct from success and from each validation
error. -/
theorem checkLive_cancelled_outcome (s : ProxyState) (id : Nat)
    (addr : List Char) (pre post : List LoopEvent) (s1 : ProxyState)
    (t : Token) (hv : validationResult addr = none)
    (hmk : makeContext s id = .ok (s1, t))
    (hpre : ∀ ev ∈ pre, ev = .tick false) :
    CheckLive s id addr (pre ++ .ctxDone :: post) =
      .ok ⟨some .errCanceled, post, pre.length, 0, 0,
        doneCallback id t s1⟩ ∧
    LiveResult.errCanceled ≠ .ok ∧
    (∀ e, LiveResult.errCanceled ≠ .errSplit e) ∧
    LiveResult.errCanceled ≠ .errInvalidIP ∧
    LiveResult.errCanceled ≠ .errInvalidPort := by
  refine ⟨?_, fun h => LiveResult.noConfusion h,
    fun e h => LiveResult.noConfusion h,
    fun h => LiveResult.noConfusion h, fun h => LiveResult.noConfusion h⟩
  rw [checkLive_valid_eq s id addr (pre ++ .ctxDone :: post) s1 t hmk hv,
    pollLoop_cancel_after_failures pre post hpre]

/-- Witness for `checkLive_cancelled_outcome`: one failed tick, then the
done signal; the trailing schedule is not consumed. -/
theorem checkLive_cancelled_outcome_witness :
    CheckLive zeroProxy 7 "127.0.0.1:80".data
        [.tick false, .ctxDone, .tick true] =
      .ok ⟨some .errCanceled, [.tick true], 1, 0, 0,
        doneCallback 7 0 ⟨some [(7, 0)], [], 1⟩⟩ ∧
    LiveResult.errCanceled ≠ .ok :=
  have h := checkLive_cancelled_outcome zeroProxy 7 "127.0.0.1:80".data
    [.tick false] [.tick true] ⟨some [(7, 0)], [], 1⟩ 0 rfl rfl (by decide)
  ⟨h.1, h.2.1⟩

/-- Claim C7.  With a valid address: a failed dial never ends the call (a
prepended failed tick leaves the outcome unchanged except for one more
dial attempt); the call succeeds exactly when the schedule reaches a
successful dial with only failed ticks before it; the only outcomes are
still-polling, success, or cancellation; and every connection a
successful dial opens is closed. -/
theorem checkLive_success_iff_dial (s : ProxyState) (id : Nat)
    (addr : List Char) (events : List LoopEvent) (s1 : ProxyState)
    (t : Token) (hv : validationResult addr = none)
    (hmk : makeContext s id = .ok (s1, t)) :
    (∀ out, CheckLive s id addr events = .ok out →
      CheckLive s id addr (.tick false :: events) =
        .ok ⟨out.result, out.rest, out.dials + 1, out.opened, out.closed,
          out.state⟩) ∧
    ((∃ out, CheckLive s id addr events = .ok out ∧
        out.result = some .ok) ↔
      ∃ pre post, events = pre ++ .tick true :: post ∧
        ∀ ev ∈ pre, ev = .tick false) ∧
    (∀ out, CheckLive s id addr events = .ok out →
      out.result = none ∨ out.result = some .ok ∨
        out.result = some .errCanceled) ∧
    (∀ out, CheckLive s id addr events = .ok out →
      out.opened = out.closed) := by
  have heq := checkLive_valid_eq s id addr events s1 t hmk hv
  have heq2 := checkLive_valid_eq s id addr (.tick false :: events) s1 t hmk hv
  refine ⟨?_, ?_, ?_, ?_⟩
  · intro out hout
    rw [heq] at hout
    cases hout
    rw [heq2, pollLoop_tick_false]
  · constructor
    · rintro ⟨out, hout, hres⟩
      rw [heq] at hout
      cases hout
      exact (pollLoop_ok_iff events).mp hres
    · intro hex
      refine ⟨_, heq, ?_⟩
      exact (pollLoop_ok_iff events).mpr hex
  · intro out hout
    rw [heq] at hout
    cases hout
    exact pollLoop_result_cases events
  · intro out hout
    rw [heq] at hout
    cases hout
    exact pollLoop_opened_eq_closed events

/-- Witness for `checkLive_success_iff_dial`: the probe of
`127.0.0.1:80` under a schedule with one failed then one successful dial
ends in success. -/
theorem checkLive_success_iff_dial_witness :
    ∃ out, CheckLive zeroProxy 7 "127.0.0.1:80".data
        [.tick false, .tick true] = .ok out ∧ out.result = some .ok :=
  (checkLive_success_iff_dial zeroProxy 7 "127.0.0.1:80".data
      [.tick false, .tick true] ⟨some [(7, 0)], [], 1⟩ 0 rfl rfl).2.1.mpr
    ⟨[.tick false], [], rfl, by decide⟩

/-!
Section: Port and host acceptance criteria.
-/

/-- The mathematical base-10 value of a digit string, against which the
claim measures `ParseUint`'s acceptance. -/
def digitsVal (s : List Char) : Nat :=
  s.foldl (fun n c => n * 10 + (c.toNat - '0'.toNat)) 0

theorem foldl_digits_ge (p : List Char) (n : Nat) :
    n ≤ p.foldl (fun n c => n * 10 + (c.toNat - '0'.toNat)) n := by
  induction p generalizing n with
  | nil => exact le_refl n
  | cons c rest ih =>
      rw [List.foldl_cons]
      exact le_trans (by omega) (ih (n * 10 + (c.toNat - '0'.toNat)))

theorem parseUintLoop_sound (p : List Char) (n v : Nat)
    (h : parseUintLoop p n = some v) :
    (∀ c ∈ p, '0' ≤ c ∧ c ≤ '9') ∧
    v = p.foldl (fun n c => n * 10 + (c.toNat - '0'.toNat)) n ∧
    (p ≠ [] → v ≤ 65535) := by
  induction p generalizing n with
  | nil =>
      simp only [parseUintLoop] at h
      cases h
      exact ⟨by simp, rfl, fun hc => absurd rfl hc⟩
  | cons c rest ih =>
      simp only [parseUintLoop] at h
      by_cases hd : '0' ≤ c ∧ c ≤ '9'
      · rw [if_pos hd] at h
        by_cases hcut : n ≥ 6554
        · rw [if_pos hcut] at h; exact Option.noConfusion h
        · rw [if_neg hcut] at h
          by_cases hmax : n * 10 + (c.toNat - '0'.toNat) > 65535
          · rw [if_pos hmax] at h; exact Option.noConfusion h
          · rw [if_neg hmax] at h
            obtain ⟨hdig, hval, hle⟩ := ih (n * 10 + (c.toNat - '0'.toNat)) h
            refine ⟨?_, by rw [List.foldl_cons]; exact hval, fun _ => ?_⟩
            · intro e he
              rcases List.mem_cons.mp he with rfl | hm
              · exact hd
              · exact hdig e hm
            · cases hr : rest with
              | nil =>
                  subst hr
                  simp only [List.foldl_nil] at hval
                  omega
              | cons x xs =>
                  exact hle (by rw [hr]; exact (by simp))
      · rw [if_neg hd] at h; exact Option.noConfusion h

theorem parseUintLoop_complete (p : List Char) (n : Nat)
    (hdig : ∀ c ∈ p, '0' ≤ c ∧ c ≤ '9')
    (hle : p.foldl (fun n c => n * 10 + (c.toNat - '0'.toNat)) n ≤ 65535) :
    parseUintLoop p n =
      some (p.foldl (fun n c => n * 10 + (c.toNat - '0'.toNat)) n) := by
  induction p generalizing n with
  | nil => rfl
  | cons c rest ih =>
      have hd : '0' ≤ c ∧ c ≤ '9' := hdig c (by simp)
      have hstep : n * 10 + (c.toNat - '0'.toNat) ≤
          (c :: rest).foldl (fun n c => n * 10 + (c.toNat - '0'.toNat)) n := by
        rw [List.foldl_cons]
        exact foldl_digits_ge rest _
      have hn1 : n * 10 + (c.toNat - '0'.toNat) ≤ 65535 := le_trans hstep hle
      have hcut : ¬ n ≥ 6554 := by omega
      simp only [parseUintLoop, if_pos hd, if_neg hcut,
        if_neg (by omega : ¬ n * 10 + (c.toNat - '0'.toNat) > 65535)]
      rw [List.foldl_cons] at hle ⊢
      exact ih _ (fun e he => hdig e (by simp [he])) hle

/-- Claim C8.  The port text is accepted exactly when it is a non-empty
string of decimal digits whose value fits in 16 bits (`≤ 65535`), and the
accepted value is that base-10 reading; within `CheckLive`'s validation
the host is rejected exactly when `net.ParseIP` yields `nil`, and the
port check is `ParseUint`'s; DNS names (`"example.com"`, `"not-an-ip"`)
are rejected while IPv4 and IPv6 literals parse. -/
theorem validation_criteria :
    (∀ p : List Char, (parseUint16 p).isSome ↔
      (p ≠ [] ∧ (∀ c ∈ p, '0' ≤ c ∧ c ≤ '9') ∧ digitsVal p ≤ 65535)) ∧
    (∀ p v, parseUint16 p = some v → v = digitsVal p) ∧
    (∀ addr host port, splitHostPort addr = .ok (host, port) →
      ((validationResult addr = some .errInvalidIP ↔ parseIP host = none) ∧
       (parseIP host ≠ none →
         (validationResult addr = some .errInvalidPort ↔
           parseUint16 port = none)))) ∧
    parseIP "example.com".data = none ∧
    parseIP "not-an-ip".data = none ∧
    (parseIP "127.0.0.1".data).isSome ∧
    (parseIP "::1".data).isSome := by
  refine ⟨?_, ?_, ?_, by decide, by decide, by decide, by decide⟩
  · intro p
    constructor
    · intro hs
      obtain ⟨v, hv⟩ := Option.isSome_iff_exists.mp hs
      have hne : p ≠ [] := by
        intro hp
        rw [hp] at hv
        exact Option.noConfusion hv
      rw [parseUint16, if_neg hne] at hv
      obtain ⟨hdig, hval, hle⟩ := parseUintLoop_sound p 0 v hv
      exact ⟨hne, hdig, by rw [digitsVal, ← hval]; exact hle hne⟩
    · rintro ⟨hne, hdig, hle⟩
      rw [parseUint16, if_neg hne,
        parseUintLoop_complete p 0 hdig (by rw [digitsVal] at hle; exact hle)]
      exact rfl
  · intro p v hv
    have hne : p ≠ [] := by
      intro hp
      rw [hp] at hv
      exact Option.noConfusion hv
    rw [parseUint16, if_neg hne] at hv
    exact (parseUintLoop_sound p 0 v hv).2.1
  · intro addr host port hsp
    simp only [validationResult, hsp]
    by_cases hip : parseIP host = none
    · rw [if_pos hip]
      refine ⟨⟨fun _ => hip, fun _ => rfl⟩, fun hni => absurd hip hni⟩
    · rw [if_neg hip]
      refine ⟨⟨?_, fun h => absurd h hip⟩, fun _ => ?_⟩
      · by_cases hpt : parseUint16 port = none
        · rw [if_pos hpt]
          intro h
          cases h
        · rw [if_neg hpt]
          intro h
          exact Option.noConfusion h
      · by_cases hpt : parseUint16 port = none
        · rw [if_pos hpt]
          exact ⟨fun _ => hpt, fun _ => rfl⟩
        · rw [if_neg hpt]
          exact ⟨fun h => Option.noConfusion h, fun h => absurd h hpt⟩

/-- Witness for `validation_criteria`: the port `"80"` is accepted with
value 80; `"not-an-ip"` as a host makes validation fail with the
invalid-IP error. -/
theorem validation_criteria_witness :
    (parseUint16 "80".data).isSome ∧
    80 = digitsVal "80".data ∧
    (validationResult "not-an-ip:80".data = some .errInvalidIP ↔
      parseIP "not-an-ip".data = none) := by
  obtain ⟨h1, h2, h3, -⟩ := validation_criteria
  exact ⟨(h1 "80".data).mpr (by decide), h2 "80".data 80 (by decide),
    (h3 "not-an-ip:80".data "not-an-ip".data "80".data rfl).1⟩

end Hiveproxy
